import Mathlib

/-!
Verification of the document indexing core of the AI-SDLC-MCP repository
(`src/document_service.py`, `src/file_watcher.py`, `src/models.py`).

The Python code is shallowly embedded:
* Python `dict` (insertion-ordered, overwrite keeps the original slot) is
  modelled as an association list `List (String × α)` with `dict_get`,
  `dict_insert`, `dict_del`.
* Python `set` (as used by the tag index: membership, `add`, `discard`) is
  modelled as a duplicate-free `List String` with `set_add`, `set_discard`.
* Timestamps (`datetime`) are modelled as `Int` (comparison is all the code
  uses); `datetime.now()` bumps are modelled as a logical clock `+ 1`.
* Relevance scores (Python floats) are modelled as `ℚ`; the only score the
  embedded code produces itself is the literal `1.0`.
* The Whoosh full-text index is modelled by its observable content: a mapping
  id → stored fields.  A writer transaction that fails is cancelled
  (`writer.cancel()`), leaving that mapping unchanged; this is captured by an
  explicit `index_write_fails` flag on each mutating operation.
* The Whoosh searcher's BM25-ranked hit list (external library code) is an
  oracle parameter `whoosh_hits : List (String × ℚ)` to `search_documents`.
-/

namespace AISDLC

/-! ## Python dict / set model -/

/-- Lookup in an insertion-ordered association list (Python `dict.get`). -/
def dict_get {α : Type} (m : List (String × α)) (k : String) : Option α :=
  match m with
  | [] => none
  | (k', v) :: rest => if k' = k then some v else dict_get rest k

/-- Python `d[k] = v`: overwrite in place if the key exists (keeping its
insertion slot), otherwise append at the end. -/
def dict_insert {α : Type} (m : List (String × α)) (k : String) (v : α) :
    List (String × α) :=
  match m with
  | [] => [(k, v)]
  | (k', v') :: rest =>
    if k' = k then (k, v) :: rest else (k', v') :: dict_insert rest k v

/-- Python `del d[k]` (on the maps of the service, always called with the key
present; on an absent key this model is the identity). -/
def dict_del {α : Type} (m : List (String × α)) (k : String) :
    List (String × α) :=
  match m with
  | [] => []
  | (k', v') :: rest =>
    if k' = k then rest else (k', v') :: dict_del rest k

/-- Keys of an association list. -/
def dict_keys {α : Type} (m : List (String × α)) : List String :=
  m.map (fun e => e.1)

/-- Python `set.add` on a duplicate-free list model. -/
def set_add (s : List String) (x : String) : List String :=
  if x ∈ s then s else s ++ [x]

/-- Python `set.discard` on the list model. -/
def set_discard (s : List String) (x : String) : List String :=
  s.filter (fun y => y ≠ x)

/-! ### Dictionary lemmas -/

theorem dict_insert_cons_self {α : Type} (k : String) (v v' : α)
    (rest : List (String × α)) :
    dict_insert ((k, v') :: rest) k v = (k, v) :: rest := by
  simp [dict_insert]

theorem dict_insert_cons_ne {α : Type} {k₀ k : String} (v₀ v : α)
    (rest : List (String × α)) (h : k₀ ≠ k) :
    dict_insert ((k₀, v₀) :: rest) k v = (k₀, v₀) :: dict_insert rest k v := by
  simp [dict_insert, h]

theorem dict_del_cons_self {α : Type} (k : String) (v' : α)
    (rest : List (String × α)) : dict_del ((k, v') :: rest) k = rest := by
  simp [dict_del]

theorem dict_del_cons_ne {α : Type} {k₀ k : String} (v₀ : α)
    (rest : List (String × α)) (h : k₀ ≠ k) :
    dict_del ((k₀, v₀) :: rest) k = (k₀, v₀) :: dict_del rest k := by
  simp [dict_del, h]

theorem dict_get_cons_self {α : Type} (k : String) (v' : α)
    (rest : List (String × α)) : dict_get ((k, v') :: rest) k = some v' := by
  simp [dict_get]

theorem dict_get_cons_ne {α : Type} {k₀ k : String} (v₀ : α)
    (rest : List (String × α)) (h : k₀ ≠ k) :
    dict_get ((k₀, v₀) :: rest) k = dict_get rest k := by
  simp [dict_get, h]

theorem dict_get_insert_self {α : Type} (m : List (String × α)) (k : String)
    (v : α) : dict_get (dict_insert m k v) k = some v := by
  induction m with
  | nil => simp [dict_insert, dict_get]
  | cons e rest ih =>
    obtain ⟨k', v'⟩ := e
    by_cases h : k' = k
    · simp [dict_insert, dict_get, h]
    · simp [dict_insert, dict_get, h, ih]

theorem dict_get_insert_ne {α : Type} (m : List (String × α)) (k k' : String)
    (v : α) (h : k' ≠ k) : dict_get (dict_insert m k v) k' = dict_get m k' := by
  induction m with
  | nil => simp [dict_insert, dict_get, Ne.symm h]
  | cons e rest ih =>
    obtain ⟨k₀, v₀⟩ := e
    by_cases h₀ : k₀ = k
    · subst h₀
      simp [dict_insert, dict_get, Ne.symm h]
    · simp [dict_insert, dict_get, h₀, ih]

theorem dict_get_del_ne {α : Type} (m : List (String × α)) (k k' : String)
    (h : k' ≠ k) : dict_get (dict_del m k) k' = dict_get m k' := by
  induction m with
  | nil => simp [dict_del, dict_get]
  | cons e rest ih =>
    obtain ⟨k₀, v₀⟩ := e
    by_cases h₀ : k₀ = k
    · subst h₀
      simp [dict_del, dict_get, Ne.symm h]
    · simp [dict_del, dict_get, h₀, ih]

theorem dict_get_eq_none_of_not_mem {α : Type} {m : List (String × α)}
    {k : String} (h : k ∉ dict_keys m) : dict_get m k = none := by
  induction m with
  | nil => rfl
  | cons e rest ih =>
    obtain ⟨k₀, v₀⟩ := e
    simp only [dict_keys, List.map_cons, List.mem_cons] at h
    push_neg at h
    simp [dict_get, Ne.symm h.1, ih (by simpa [dict_keys] using h.2)]

theorem dict_get_del_self {α : Type} (m : List (String × α)) (k : String)
    (hnd : (dict_keys m).Nodup) : dict_get (dict_del m k) k = none := by
  induction m with
  | nil => rfl
  | cons e rest ih =>
    obtain ⟨k₀, v₀⟩ := e
    simp only [dict_keys, List.map_cons, List.nodup_cons] at hnd
    by_cases h₀ : k₀ = k
    · subst h₀
      simp only [dict_del, if_pos rfl]
      exact dict_get_eq_none_of_not_mem (by simpa [dict_keys] using hnd.1)
    · simp [dict_del, dict_get, h₀, ih hnd.2]

theorem dict_get_mem {α : Type} {m : List (String × α)} {k : String} {v : α}
    (h : dict_get m k = some v) : (k, v) ∈ m := by
  induction m with
  | nil => simp [dict_get] at h
  | cons e rest ih =>
    obtain ⟨k₀, v₀⟩ := e
    by_cases h₀ : k₀ = k
    · subst h₀
      rw [dict_get_cons_self] at h
      injection h with hv
      subst hv
      exact List.mem_cons_self _ _
    · rw [dict_get_cons_ne v₀ rest h₀] at h
      exact List.mem_cons_of_mem _ (ih h)

theorem mem_dict_get {α : Type} {m : List (String × α)} {k : String} {v : α}
    (hnd : (dict_keys m).Nodup) (h : (k, v) ∈ m) : dict_get m k = some v := by
  induction m with
  | nil => simp at h
  | cons e rest ih =>
    obtain ⟨k₀, v₀⟩ := e
    simp only [dict_keys, List.map_cons, List.nodup_cons] at hnd
    rcases List.mem_cons.mp h with h' | h'
    · cases h'
      exact dict_get_cons_self k v rest
    · have hk : k₀ ≠ k := by
        intro hk
        subst hk
        exact hnd.1 (by simpa [dict_keys] using
          List.mem_map_of_mem (fun e => e.1) h')
      simp [dict_get, hk, ih hnd.2 h']

theorem key_mem_of_dict_get {α : Type} {m : List (String × α)} {k : String}
    {v : α} (h : dict_get m k = some v) : k ∈ dict_keys m := by
  simpa [dict_keys] using List.mem_map_of_mem (fun e => e.1) (dict_get_mem h)

theorem mem_dict_insert_elim {α : Type} {m : List (String × α)} {k : String}
    {v : α} {e : String × α} (h : e ∈ dict_insert m k v) :
    e = (k, v) ∨ e ∈ m := by
  induction m with
  | nil => simpa [dict_insert] using h
  | cons e₀ rest ih =>
    obtain ⟨k₀, v₀⟩ := e₀
    by_cases h₀ : k₀ = k
    · subst h₀
      rw [dict_insert_cons_self] at h
      rcases List.mem_cons.mp h with h | h
      · exact Or.inl h
      · exact Or.inr (List.mem_cons_of_mem _ h)
    · rw [dict_insert_cons_ne v₀ v rest h₀] at h
      rcases List.mem_cons.mp h with h | h
      · exact Or.inr (List.mem_cons.mpr (Or.inl h))
      · rcases ih h with h' | h'
        · exact Or.inl h'
        · exact Or.inr (List.mem_cons_of_mem _ h')

theorem mem_dict_insert_of_mem {α : Type} {m : List (String × α)} {k : String}
    {v : α} {e : String × α} (he : e ∈ m) (hne : e.1 ≠ k) :
    e ∈ dict_insert m k v := by
  induction m with
  | nil => simp at he
  | cons e₀ rest ih =>
    obtain ⟨k₀, v₀⟩ := e₀
    by_cases h₀ : k₀ = k
    · subst h₀
      rw [dict_insert_cons_self]
      rcases List.mem_cons.mp he with h | h
      · exact absurd (congrArg Prod.fst h) hne
      · exact List.mem_cons_of_mem _ h
    · rw [dict_insert_cons_ne v₀ v rest h₀]
      rcases List.mem_cons.mp he with h | h
      · exact List.mem_cons.mpr (Or.inl h)
      · exact List.mem_cons_of_mem _ (ih h)

theorem mem_dict_insert_self {α : Type} (m : List (String × α)) (k : String)
    (v : α) : (k, v) ∈ dict_insert m k v :=
  dict_get_mem (dict_get_insert_self m k v)

theorem dict_del_sublist {α : Type} (m : List (String × α)) (k : String) :
    List.Sublist (dict_del m k) m := by
  induction m with
  | nil => simp [dict_del]
  | cons e₀ rest ih =>
    obtain ⟨k₀, v₀⟩ := e₀
    by_cases h₀ : k₀ = k
    · rw [h₀, dict_del_cons_self]
      exact List.sublist_cons_self _ _
    · rw [dict_del_cons_ne v₀ rest h₀]
      exact List.Sublist.cons₂ _ ih

theorem mem_dict_del_elim {α : Type} {m : List (String × α)} {k : String}
    {e : String × α} (h : e ∈ dict_del m k) : e ∈ m :=
  (dict_del_sublist m k).subset h

theorem mem_dict_del_key_ne {α : Type} {m : List (String × α)} {k : String}
    {e : String × α} (hnd : (dict_keys m).Nodup) (h : e ∈ dict_del m k) :
    e.1 ≠ k := by
  induction m with
  | nil => simp [dict_del] at h
  | cons e₀ rest ih =>
    obtain ⟨k₀, v₀⟩ := e₀
    simp only [dict_keys, List.map_cons, List.nodup_cons] at hnd
    by_cases h₀ : k₀ = k
    · subst h₀
      rw [dict_del_cons_self] at h
      intro hk
      apply hnd.1
      have hmem : e.1 ∈ dict_keys rest := by
        simpa [dict_keys] using List.mem_map_of_mem (fun x => x.1) h
      rw [hk] at hmem
      simpa [dict_keys] using hmem
    · rw [dict_del_cons_ne v₀ rest h₀] at h
      rcases List.mem_cons.mp h with h | h
      · rw [h]
        exact h₀
      · exact ih hnd.2 h

theorem dict_keys_insert {α : Type} (m : List (String × α)) (k : String)
    (v : α) : dict_keys (dict_insert m k v) =
      if k ∈ dict_keys m then dict_keys m else dict_keys m ++ [k] := by
  induction m with
  | nil => simp [dict_insert, dict_keys]
  | cons e rest ih =>
    obtain ⟨k₀, v₀⟩ := e
    by_cases h₀ : k₀ = k
    · subst h₀
      rw [dict_insert_cons_self]
      simp [dict_keys]
    · rw [dict_insert_cons_ne v₀ v rest h₀]
      simp only [dict_keys, List.map_cons] at ih ⊢
      rw [ih]
      simp only [List.mem_cons, Ne.symm h₀, false_or]
      by_cases hm : k ∈ List.map (fun e => e.1) rest
      · simp [hm]
      · simp [hm]

theorem dict_keys_nodup_insert {α : Type} {m : List (String × α)} (k : String)
    (v : α) (hnd : (dict_keys m).Nodup) :
    (dict_keys (dict_insert m k v)).Nodup := by
  rw [dict_keys_insert]
  by_cases hm : k ∈ dict_keys m
  · simpa [hm] using hnd
  · simp only [hm, if_false]
    simp [List.nodup_append, hnd, hm]

theorem dict_keys_nodup_del {α : Type} {m : List (String × α)} (k : String)
    (hnd : (dict_keys m).Nodup) : (dict_keys (dict_del m k)).Nodup :=
  hnd.sublist (by simpa [dict_keys] using
    (dict_del_sublist m k).map (fun e => e.1))

theorem dict_insert_length_absent {α : Type} {m : List (String × α)}
    {k : String} (v : α) (h : dict_get m k = none) :
    (dict_insert m k v).length = m.length + 1 := by
  induction m with
  | nil => simp [dict_insert]
  | cons e₀ rest ih =>
    obtain ⟨k₀, v₀⟩ := e₀
    by_cases h₀ : k₀ = k
    · simp [dict_get, h₀] at h
    · simp only [dict_get, if_neg h₀] at h
      simp [dict_insert, if_neg h₀, ih h]

theorem dict_del_length_present {α : Type} {m : List (String × α)}
    {k : String} {v : α} (h : dict_get m k = some v) :
    (dict_del m k).length + 1 = m.length := by
  induction m with
  | nil => simp [dict_get] at h
  | cons e₀ rest ih =>
    obtain ⟨k₀, v₀⟩ := e₀
    by_cases h₀ : k₀ = k
    · simp [dict_del, h₀]
    · simp only [dict_get, if_neg h₀] at h
      simp [dict_del, if_neg h₀, ih h]

/-! ### Set lemmas -/

theorem mem_set_add_elim {s : List String} {x y : String}
    (h : x ∈ set_add s y) : x = y ∨ x ∈ s := by
  unfold set_add at h
  by_cases hy : y ∈ s
  · simp only [if_pos hy] at h
    exact Or.inr h
  · simp only [if_neg hy, List.mem_append, List.mem_singleton] at h
    exact h.symm.imp id id

theorem mem_set_add_self (s : List String) (y : String) : y ∈ set_add s y := by
  unfold set_add
  by_cases hy : y ∈ s
  · simp [hy]
  · simp [hy]

theorem mem_set_add_of_mem {s : List String} {x : String} (y : String)
    (h : x ∈ s) : x ∈ set_add s y := by
  unfold set_add
  by_cases hy : y ∈ s
  · simpa [hy]
  · simp [hy, h]

theorem set_add_ne_nil (s : List String) (y : String) : set_add s y ≠ [] := by
  intro h
  exact absurd (h ▸ mem_set_add_self s y) (List.not_mem_nil y)

theorem mem_set_discard {s : List String} {x y : String} :
    x ∈ set_discard s y ↔ x ∈ s ∧ x ≠ y := by
  simp [set_discard]

/-! ## Python string primitives -/

/-- The ASCII whitespace characters of Python's `str.strip` and regex `\s`. -/
def is_py_space (c : Char) : Bool :=
  c = ' ' || c = '\t' || c = '\n' || c = '\r' || c = '\x0b' || c = '\x0c'

/-- Python `str.strip()`. -/
def py_strip (s : String) : String :=
  String.mk (((s.data.dropWhile is_py_space).reverse.dropWhile
    is_py_space).reverse)

/-- Character-wise lower-casing (Python `str.lower` on the ASCII text the
service handles). -/
def lower_chars (s : List Char) : List Char :=
  s.map Char.toLower

/-- Python `str.find(sub)`: index of the first occurrence of `sub`, `none`
for Python's `-1`.  `find("") = 0` as in Python. -/
def find_first (hay sub : List Char) : Option Nat :=
  if sub.isPrefixOf hay then some 0
  else
    match hay with
    | [] => none
    | _ :: t => (find_first t sub).map (fun i => i + 1)

/-- Python `sub in hay` on strings (substring containment). -/
def str_contains_sub (hay sub : String) : Bool :=
  (find_first hay.data sub.data).isSome

/-- Python truthiness of an `Optional[str]`: `None` and `""` are falsy. -/
def py_truthy_str (s : Option String) : Bool :=
  match s with
  | none => false
  | some s => s ≠ ""

/-- Python `str.split(sep)` on character lists: always at least one piece,
empty pieces kept (`"a\n".split('\n') == ["a", ""]`). -/
def py_split_chars (sep : Char) : List Char → List (List Char)
  | [] => [[]]
  | c :: rest =>
    let r := py_split_chars sep rest
    if c = sep then [] :: r
    else (c :: r.headD []) :: r.tail

/-- Python `str.split(sep)` with a one-character separator. -/
def py_split (sep : Char) (s : String) : List String :=
  (py_split_chars sep s.data).map (fun cs => String.mk cs)

/-- Python `str.lower()` (character-wise, the ASCII case the service
handles). -/
def str_to_lower (s : String) : String :=
  String.mk (lower_chars s.data)

/-- Python list slicing `l[start:stop]`: negative indices count from the end,
out-of-range indices are clamped, and the operation never raises. -/
def py_slice {α : Type} (l : List α) (start stop : Int) : List α :=
  let n : Int := l.length
  let s : Int := if start < 0 then max (n + start) 0 else min start n
  let e : Int := if stop < 0 then max (n + stop) 0 else min stop n
  (l.drop s.toNat).take (e - s).toNat

/-! ## Data model (src/models.py) -/

/-- `SortBy` enum of `models.py`. -/
inductive SortBy : Type
  | relevance
  | modified
  | created
  | title
deriving DecidableEq

/-- `SortOrder` enum of `models.py`. -/
inductive SortOrder : Type
  | asc
  | desc
deriving DecidableEq

/-- `DocumentMetadata` of `models.py`; datetimes are `Int` timestamps and the
free-form `custom_fields` dictionary is a string-keyed association list. -/
structure DocumentMetadata : Type where
  title : Option String := none
  description : Option String := none
  tags : List String := []
  author : Option String := none
  created : Option Int := none
  modified : Option Int := none
  version : Option String := none
  custom_fields : List (String × String) := []
deriving DecidableEq

/-- `DocumentContext` of `models.py`. -/
structure DocumentContext : Type where
  id : String
  title : String
  content : String
  path : String
  relative_path : String
  last_modified : Int
  size : Nat
  tags : List String := []
  metadata : DocumentMetadata := {}
  excerpt : Option String := none
  word_count : Nat := 0
  file_type : String := ""
deriving DecidableEq

/-- `SearchMatch` of `models.py`. -/
structure SearchMatch : Type where
  line : Nat
  text : String
  start_index : Nat
  end_index : Nat
deriving DecidableEq

/-- `SearchResult` of `models.py` (the float score is modelled as `ℚ`; the
source field `matches` is spelled `matches'` because `matches` is reserved
in Lean). -/
structure SearchResult : Type where
  document : DocumentContext
  score : ℚ
  matches' : List SearchMatch := []
deriving DecidableEq

/-- `ContextQuery` of `models.py`, with its Python field defaults. -/
structure ContextQuery : Type where
  query : Option String := none
  tags : List String := []
  path : Option String := none
  file_type : Option String := none
  limit : Int := 10
  offset : Int := 0
  since : Option Int := none
  sort_by : SortBy := SortBy.relevance
  sort_order : SortOrder := SortOrder.desc
deriving DecidableEq

/-- One document as stored in the Whoosh full-text index: the fields passed
to `writer.update_document` in `add_document` (tags comma-joined). -/
structure IndexEntry : Type where
  title : String
  content : String
  tags : String
  path : String
  modified : Int
deriving DecidableEq

/-- The in-memory state of `DocumentService`: the three synchronized maps,
the `last_updated` logical clock, and the observable content of the Whoosh
index (id → stored fields). -/
structure DocumentService : Type where
  documents : List (String × DocumentContext)
  path_index : List (String × String)
  tag_index : List (String × List String)
  last_updated : Nat
  search_index : List (String × IndexEntry)
deriving DecidableEq

/-- `DocumentService.__init__` state: all maps empty (the on-disk Whoosh
index is created empty as well). -/
def empty_service : DocumentService :=
  { documents := [], path_index := [], tag_index := [], last_updated := 0,
    search_index := [] }

/-! ## DocumentService operations (src/document_service.py) -/

/-- `DocumentService._generate_document_id`: the source computes
`hashlib.md5(relative_path.encode()).hexdigest()`.  The MD5 hex digest is
modelled as an injective encoding of the relative path — the spec's "stable
hash of the relative path" treats the digest as deterministic and
collision-free, and only those two properties are ever used. -/
def generate_document_id (relative_path : String) : String :=
  "md5:" ++ relative_path

/-- The single tag-index update step of `add_document`:
`self.tag_index[tag].add(document.id)` on a `defaultdict(set)` (a missing tag
key is created, at the end of the dict, holding the empty set). -/
def tag_index_add (ti : List (String × List String)) (tag id : String) :
    List (String × List String) :=
  dict_insert ti tag (set_add ((dict_get ti tag).getD []) id)

/-- The single tag-index removal step of `remove_document`:
`self.tag_index[tag].discard(document_id)` followed by pruning
`del self.tag_index[tag]` when the set became empty.  (For a tag absent from
the index the `defaultdict` briefly materialises an empty set which the prune
immediately deletes, so the net effect is captured exactly.) -/
def tag_index_discard (ti : List (String × List String)) (tag id : String) :
    List (String × List String) :=
  let s' := set_discard ((dict_get ti tag).getD []) id
  if s' = [] then dict_del ti tag else dict_insert ti tag s'

/-- `DocumentService.add_document`.  Updates the three in-memory maps, then
attempts the full-text index write; `index_write_fails` tells whether the
Whoosh `writer.commit()` raises, in which case the error is logged, the
writer is cancelled (the index is left unchanged) and execution continues;
`last_updated` is bumped either way.  The function is total: no exception
reaches the caller. -/
def add_document (svc : DocumentService) (document : DocumentContext)
    (index_write_fails : Bool) : DocumentService :=
  { documents := dict_insert svc.documents document.id document
    path_index := dict_insert svc.path_index document.relative_path document.id
    tag_index := document.tags.foldl
      (fun ti tag => tag_index_add ti tag document.id) svc.tag_index
    search_index :=
      if index_write_fails then svc.search_index
      else dict_insert svc.search_index document.id
        { title := document.title, content := document.content,
          tags := String.intercalate "," document.tags,
          path := document.relative_path, modified := document.last_modified }
    last_updated := svc.last_updated + 1 }

/-- `DocumentService.remove_document`.  A no-op (without `last_updated` bump)
when the id is absent; otherwise deletes from all three maps (pruning empty
tag-sets) and attempts the full-text index delete, whose failure is logged
and cancelled. -/
def remove_document (svc : DocumentService) (document_id : String)
    (index_write_fails : Bool) : DocumentService :=
  match dict_get svc.documents document_id with
  | none => svc
  | some document =>
    { documents := dict_del svc.documents document_id
      path_index := dict_del svc.path_index document.relative_path
      tag_index := document.tags.foldl
        (fun ti tag => tag_index_discard ti tag document_id) svc.tag_index
      search_index :=
        if index_write_fails then svc.search_index
        else dict_del svc.search_index document_id
      last_updated := svc.last_updated + 1 }

/-- `DocumentService.clear_all_documents`.  Clears the three in-memory maps
and then runs `writer.commit(optimize=True)` on the full-text index: an
optimize-only commit merges segments but queues no deletions, so the set of
indexed documents is unchanged (whether the commit succeeds or is cancelled
on failure). -/
def clear_all_documents (svc : DocumentService) : DocumentService :=
  { documents := [], path_index := [], tag_index := [],
    search_index := svc.search_index,
    last_updated := svc.last_updated + 1 }

/-- `DocumentService.get_document`: path → id via the path index (an empty or
missing id is treated as absent, mirroring `if not document_id`), then id →
document. -/
def get_document (svc : DocumentService) (path : String) :
    Option DocumentContext :=
  match dict_get svc.path_index path with
  | none => none
  | some document_id =>
    if document_id = "" then none else dict_get svc.documents document_id

/-- `DocumentService.get_all_documents`: `documents[:limit] if limit else
documents` — a falsy limit (`None` or `0`) returns everything, any other
limit is applied as a Python slice from the start. -/
def get_all_documents (svc : DocumentService) (limit : Option Int) :
    List DocumentContext :=
  let documents := svc.documents.map (fun e => e.2)
  match limit with
  | none => documents
  | some l => if l = 0 then documents else py_slice documents 0 l

/-- `DocumentService.get_documents_by_tag`. -/
def get_documents_by_tag (svc : DocumentService) (tag : String) :
    List DocumentContext :=
  ((dict_get svc.tag_index tag).getD []).filterMap
    (fun doc_id => dict_get svc.documents doc_id)

/-- `DocumentService.get_all_tags`: sorted tag keys. -/
def get_all_tags (svc : DocumentService) : List String :=
  (dict_keys svc.tag_index).mergeSort (fun a b => a ≤ b)

/-- The line loop of `DocumentService._find_matches`: scan lines
top-to-bottom (1-based numbering), record the first case-insensitive
occurrence of the query per line, and stop as soon as the match just
appended is the fifth (`remaining` counts matches still allowed). -/
def find_matches_go (query : String) (query_lower : List Char) :
    List String → Nat → Nat → List SearchMatch
  | [], _, _ => []
  | line :: rest, line_num, remaining =>
    match find_first (lower_chars line.data) query_lower with
    | some start_index =>
      let m : SearchMatch :=
        { line := line_num, text := py_strip line,
          start_index := start_index,
          end_index := start_index + query.length }
      if remaining ≤ 1 then [m]
      else m :: find_matches_go query query_lower rest (line_num + 1)
        (remaining - 1)
    | none => find_matches_go query query_lower rest (line_num + 1) remaining

/-- `DocumentService._find_matches`: literal case-insensitive scan of
`content.split('\n')`, at most 5 matches. -/
def find_matches (document : DocumentContext) (query : String) :
    List SearchMatch :=
  find_matches_go query (lower_chars query.data)
    (py_split '\n' document.content) 1 5

/-- `DocumentService._perform_text_search`.  The Whoosh searcher's ranked
`(id, score)` hits (BM25 scoring inside the external library, requested with
`limit=100`) are the oracle `whoosh_hits`; each hit id is resolved against
the in-memory store (unresolvable ids are skipped) and matches are computed
on the resolved document. -/
def perform_text_search (svc : DocumentService)
    (whoosh_hits : List (String × ℚ)) (query_text : String) :
    List SearchResult :=
  (whoosh_hits.take 100).filterMap (fun hit =>
    (dict_get svc.documents hit.1).map (fun document =>
      { document := document, score := hit.2,
        matches' := find_matches document query_text }))

/-- The candidate-construction step of `DocumentService.search_documents`
(`if query.query: ... else: ...` — Python truthiness, so `None` and `""`
both take the all-documents branch with score 1.0 and no matches). -/
def search_candidates (svc : DocumentService)
    (whoosh_hits : List (String × ℚ)) (query : ContextQuery) :
    List SearchResult :=
  if py_truthy_str query.query then
    perform_text_search svc whoosh_hits (query.query.getD "")
  else
    svc.documents.map (fun e =>
      { document := e.2, score := 1, matches' := [] })

/-- The four optional AND-combined post-filters of `search_documents`, in
source order (each guarded by Python truthiness of the query field). -/
def apply_filters (results : List SearchResult) (query : ContextQuery) :
    List SearchResult :=
  let results :=
    if query.tags.isEmpty then results
    else results.filter (fun r =>
      query.tags.any (fun tag => r.document.tags.contains tag))
  let results :=
    match query.path with
    | none => results
    | some p =>
      if p = "" then results
      else results.filter (fun r =>
        str_contains_sub (str_to_lower r.document.relative_path) (str_to_lower p))
  let results :=
    match query.file_type with
    | none => results
    | some ft =>
      if ft = "" then results
      else results.filter (fun r => r.document.file_type == str_to_lower ft)
  match query.since with
  | none => results
  | some since => results.filter (fun r => since ≤ r.document.last_modified)

/-- Stable insertion used to model Python's stable `list.sort`. -/
def stable_insert {α : Type} (le : α → α → Bool) (x : α) :
    List α → List α
  | [] => [x]
  | y :: ys => if le x y then x :: y :: ys else y :: stable_insert le x ys

/-- Stable sort (insertion sort) modelling Python `list.sort(key=..)`. -/
def insertion_sort {α : Type} (le : α → α → Bool) (l : List α) : List α :=
  l.foldr (stable_insert le) []

/-- Comparison of `metadata.created or datetime.min` keys: a missing
`created` sorts as the minimum timestamp. -/
def opt_int_le (a b : Option Int) : Bool :=
  match a, b with
  | none, _ => true
  | some _, none => false
  | some x, some y => x ≤ y

/-- The sort key comparison of `DocumentService._sort_results` for each
`SortBy` value. -/
def sort_key_le (sort_by : SortBy) (a b : SearchResult) : Bool :=
  match sort_by with
  | SortBy.relevance => a.score ≤ b.score
  | SortBy.modified => a.document.last_modified ≤ b.document.last_modified
  | SortBy.created =>
    opt_int_le a.document.metadata.created b.document.metadata.created
  | SortBy.title => str_to_lower a.document.title ≤ str_to_lower b.document.title

/-- `DocumentService._sort_results`: stable sort by the selected key;
`reverse=True` (descending) keeps tied elements in their original order,
which the flipped comparator under a stable sort reproduces. -/
def sort_results (results : List SearchResult) (sort_by : SortBy)
    (sort_order : SortOrder) : List SearchResult :=
  match sort_order with
  | SortOrder.asc => insertion_sort (fun a b => sort_key_le sort_by a b) results
  | SortOrder.desc => insertion_sort (fun a b => sort_key_le sort_by b a) results

/-- `DocumentService.search_documents`: candidates, filters, sort, then the
Python slice `results[offset : offset + limit]`. -/
def search_documents (svc : DocumentService)
    (whoosh_hits : List (String × ℚ)) (query : ContextQuery) :
    List SearchResult :=
  py_slice
    (sort_results (apply_filters (search_candidates svc whoosh_hits query)
      query) query.sort_by query.sort_order)
    query.offset (query.offset + query.limit)

/-! ## Title derivation (load_document, _extract_title_from_content) -/

/-- The greedy `(.+)$` tail of a `re.MULTILINE` match: everything up to the
next newline or the end of the string. -/
def take_line (cs : List Char) : List Char :=
  cs.takeWhile (fun c => c ≠ '\n')

/-- Largest index of a non-newline character, or `none` if every character
is a newline: the backtracking target of the greedy `\s+` when the
whitespace run reaches the end of the string. -/
def last_non_newline_idx : List Char → Option Nat
  | [] => none
  | c :: rest =>
    match last_non_newline_idx rest with
    | some i => some (i + 1)
    | none => if c = '\n' then none else some 0

/-- One attempt of `#\s+(.+)$` at a position whose `^` anchor holds and
whose first character is `#`; `rest` is the text after that `#`.  The greedy
`\s+` (which under `re.MULTILINE` also consumes newlines) takes the maximal
whitespace run; if a non-whitespace character follows the run, `(.+)`
matches there, otherwise the engine backtracks to the last in-run character
that is not a newline (failing if there is none beyond the first consumed
whitespace character).  The captured group runs to the next newline or the
end. -/
def h1_at (rest : List Char) : Option (List Char) :=
  let w := rest.takeWhile is_py_space
  if w.length = 0 then none
  else if w.length < rest.length then
    some (take_line (rest.drop w.length))
  else
    match last_non_newline_idx (w.drop 1) with
    | some i => some (take_line (rest.drop (i + 1)))
    | none => none

/-- `re.search(r'^#\s+(.+)$', content, re.MULTILINE)`: try every position
where `^` holds (start of string, or just after a newline) and a `#`
stands, left to right, returning the first successful capture. -/
def h1_search : List Char → Bool → Option (List Char)
  | [], _ => none
  | c :: rest, at_line_start =>
    if at_line_start && c == '#' then
      match h1_at rest with
      | some g => some g
      | none => h1_search rest (c == '\n')
    else h1_search rest (c == '\n')

/-- `DocumentService._extract_title_from_content`: the first `re.MULTILINE`
match of `^#\s+(.+)$` in the content, captured group stripped. -/
def extract_title_from_content (content : String) : Option String :=
  (h1_search content.data true).map (fun g => py_strip (String.mk g))

/-- Python `a or b` where `a` is an `Optional[str]` (falsy when `None` or
empty). -/
def py_or_str (a : Option String) (b : String) : String :=
  match a with
  | none => b
  | some s => if s = "" then b else s

/-- Line 98 of `document_service.py`:
`title = metadata.title or self._extract_title_from_content(content_body)
or file_path.stem`. -/
def derive_title (metadata_title : Option String) (content_body stem : String) :
    String :=
  py_or_str metadata_title
    (py_or_str (extract_title_from_content content_body) stem)

/-! ## File watcher (src/file_watcher.py) -/

/-- The fixed `supported_extensions` set of `DocumentFileHandler`. -/
def supported_extensions : List String := [".md", ".txt", ".rst", ".markdown"]

/-- Index of the last occurrence of `c` (Python `str.rfind`). -/
def rfind_last (cs : List Char) (c : Char) : Option Nat :=
  match cs with
  | [] => none
  | c₀ :: rest =>
    match rfind_last rest c with
    | some i => some (i + 1)
    | none => if c₀ = c then some 0 else none

/-- `pathlib.PurePath.suffix` of a POSIX path string: the final component's
extension `name[i:]` where `i` is the last dot, provided `0 < i <
len(name) - 1`. -/
def path_suffix (p : String) : String :=
  let name := ((py_split '/' p).getLastD "")
  match rfind_last name.data '.' with
  | none => ""
  | some i =>
    if 0 < i && i < name.data.length - 1 then String.mk (name.data.drop i)
    else ""

/-- `pathlib.Path.relative_to` on POSIX path strings: defined when the
root's components are a prefix of the path's components, otherwise the
`ValueError` is modelled as `none`. -/
def relative_to (p root : String) : Option String :=
  let pp := py_split '/' p
  let rp := py_split '/' root
  if rp.isPrefixOf pp then
    some (String.intercalate "/" (pp.drop rp.length))
  else none

/-- Tokens of a translated `fnmatch` pattern. -/
inductive GlobTok : Type
  | star
  | qmark
  | lit (c : Char)
  | cls (negated : Bool) (cs : List Char)
deriving DecidableEq

/-- Scan for the closing `]` of an fnmatch character class, returning the
class body and the remaining pattern. -/
def find_close_bracket : List Char → Option (List Char × List Char)
  | [] => none
  | ']' :: rest => some ([], rest)
  | c :: rest =>
    match find_close_bracket rest with
    | some (cs, r) => some (c :: cs, r)
    | none => none

/-- `fnmatch.translate` restricted to the constructs it supports: `*`, `?`,
character classes `[...]` (with `!` negation, a leading `]` literal, and an
unterminated `[` taken literally), everything else literal.  Each step
consumes at least one pattern character, so running it with
`fuel = p.length` (as `fnmatch` below does) never exhausts the fuel. -/
def translate_glob (fuel : Nat) (p : List Char) : List GlobTok :=
  match fuel, p with
  | 0, _ => []
  | _ + 1, [] => []
  | fuel + 1, '*' :: rest => GlobTok.star :: translate_glob fuel rest
  | fuel + 1, '?' :: rest => GlobTok.qmark :: translate_glob fuel rest
  | fuel + 1, '[' :: rest =>
    let negated := match rest with
      | '!' :: _ => true
      | _ => false
    let body := match rest with
      | '!' :: r => r
      | _ => rest
    let scan := match body with
      | ']' :: r =>
        match find_close_bracket r with
        | some (cs, rem) => some (']' :: cs, rem)
        | none => none
      | _ => find_close_bracket body
    match scan with
    | some (cs, rem) => GlobTok.cls negated cs :: translate_glob fuel rem
    | none => GlobTok.lit '[' :: translate_glob fuel rest
  | fuel + 1, c :: rest => GlobTok.lit c :: translate_glob fuel rest

/-- Membership in an fnmatch character class body (supports `a-z` ranges; a
trailing or leading `-` is literal, as in the translated regex). -/
def class_match : List Char → Char → Bool
  | a :: '-' :: b :: rest, c => (a ≤ c && c ≤ b) || class_match rest c
  | a :: rest, c => (a = c) || class_match rest c
  | [], _ => false

/-- Matching a token list against a string, with `*` matching any sequence
(including `/`, as `fnmatch` is not path-aware), `?` any single character,
and classes one character. -/
def tok_match (ts : List GlobTok) (s : List Char) : Bool :=
  match ts, s with
  | [], [] => true
  | [], _ :: _ => false
  | GlobTok.star :: ts', s =>
    tok_match ts' s ||
      (match s with
       | [] => false
       | _ :: s' => tok_match (GlobTok.star :: ts') s')
  | GlobTok.qmark :: ts', _ :: s' => tok_match ts' s'
  | GlobTok.qmark :: _, [] => false
  | GlobTok.lit c :: ts', c' :: s' => (c = c') && tok_match ts' s'
  | GlobTok.lit _ :: _, [] => false
  | GlobTok.cls neg cs :: ts', c :: s' =>
    (neg != class_match cs c) && tok_match ts' s'
  | GlobTok.cls _ _ :: _, [] => false
termination_by (ts.length, s.length)

/-- `DocumentFileHandler._matches_pattern` = `fnmatch.fnmatch(path, pattern)`
(POSIX `normcase` is the identity). -/
def fnmatch (name pattern : String) : Bool :=
  tok_match (translate_glob pattern.data.length pattern.data) name.data

/-- `DocumentFileHandler._should_process_file`: extension check first, then
exclude patterns, then include patterns, all on the path relative to the
watcher root.  `none` models the `ValueError` escaping when the file is not
under the root (the watcher only ever reports files under the root). -/
def should_process_file (root : String)
    (watch_patterns exclude_patterns : List String) (file_path : String) :
    Option Bool :=
  if supported_extensions.contains (str_to_lower (path_suffix file_path)) = false then
    some false
  else
    match relative_to file_path root with
    | none => none
    | some relative_path =>
      if exclude_patterns.any (fun pattern => fnmatch relative_path pattern)
      then some false
      else if watch_patterns.any (fun pattern => fnmatch relative_path pattern)
      then some true
      else some false

/-! ## Basic facts about the id hash model -/

theorem generate_document_id_ne_empty (p : String) :
    generate_document_id p ≠ "" := by
  intro h
  have h2 := congrArg String.length h
  rw [generate_document_id, String.length_append] at h2
  have h3 : "md5:".length = 4 := by decide
  have h4 : "".length = 0 := by decide
  omega

theorem generate_document_id_injective {a b : String}
    (h : generate_document_id a = generate_document_id b) : a = b := by
  have := congrArg String.data h
  simp [generate_document_id, String.data_append] at this
  exact String.ext this

/-! ## Slice lemmas -/

theorem py_slice_eq_drop_take {α : Type} (l : List α) (start stop : Int) :
    ∃ s k, py_slice l start stop = (l.drop s).take k :=
  ⟨_, _, rfl⟩

theorem py_slice_nat {α : Type} (l : List α) (a b : Nat) :
    py_slice l (a : Int) (b : Int) = (l.drop a).take (b - a) := by
  unfold py_slice
  have ha : ¬ ((a : Int) < 0) := by omega
  have hb : ¬ ((b : Int) < 0) := by omega
  simp only [if_neg ha, if_neg hb]
  by_cases hal : a ≤ l.length
  · have hs : (min (a : Int) (l.length : Int)).toNat = a := by
      rw [min_eq_left (by exact_mod_cast hal)]
      omega
    rw [hs]
    by_cases hbl : b ≤ l.length
    · have he : (min (b : Int) (l.length : Int) -
          min (a : Int) (l.length : Int)).toNat = b - a := by
        rw [min_eq_left (by exact_mod_cast hbl),
          min_eq_left (by exact_mod_cast hal)]
        omega
      rw [he]
    · have he : (min (b : Int) (l.length : Int) -
          min (a : Int) (l.length : Int)).toNat = l.length - a := by
        rw [min_eq_right (by exact_mod_cast (le_of_not_le hbl)),
          min_eq_left (by exact_mod_cast hal)]
        omega
      rw [he]
      rw [List.take_of_length_le (le_of_eq (List.length_drop a l)),
        List.take_of_length_le (by rw [List.length_drop]; omega)]
  · have hs : (min (a : Int) (l.length : Int)).toNat = l.length := by
      rw [min_eq_right (by exact_mod_cast (le_of_not_le hal))]
      omega
    rw [hs]
    rw [List.drop_eq_nil_of_le (le_refl l.length),
      List.drop_eq_nil_of_le (by omega)]
    simp

/-! ## Concrete fixtures used by witnesses and examples -/

/-- A well-formed document over path `a.md`. -/
def fixture_doc : DocumentContext :=
  { id := generate_document_id "a.md", title := "Title", content := "hello",
    path := "/root/a.md", relative_path := "a.md", last_modified := 5,
    size := 5, tags := ["guide"] }

/-- A one-document store built by `add_document`. -/
def fixture_service : DocumentService :=
  add_document empty_service fixture_doc false

/-- The i-th of five distinct well-formed documents. -/
def five_doc (i : Nat) : DocumentContext :=
  { id := generate_document_id ("d" ++ toString i ++ ".md"),
    title := toString i, content := "common text",
    path := "/root/d" ++ toString i ++ ".md",
    relative_path := "d" ++ toString i ++ ".md",
    last_modified := Int.ofNat i, size := 11 }

/-- A store holding five documents, for the pagination boundary example. -/
def five_doc_service : DocumentService :=
  (List.range 5).foldl (fun svc i => add_document svc (five_doc i) false)
    empty_service

/-- C2: if the full-text index write inside `add_document` fails, no
exception reaches the caller (`add_document` is a total function), the
resulting state is exactly the success state except that the full-text index
is left untouched (the cancelled write is rolled back), the three in-memory
maps reflect the completed add, and `last_updated` is still bumped. -/
theorem c2_index_write_failure_atomicity (svc : DocumentService)
    (document : DocumentContext) :
    add_document svc document true =
      { add_document svc document false with search_index := svc.search_index } ∧
    (add_document svc document true).search_index = svc.search_index ∧
    dict_get (add_document svc document true).documents document.id =
      some document ∧
    dict_get (add_document svc document true).path_index
      document.relative_path = some document.id ∧
    (add_document svc document true).tag_index =
      (add_document svc document false).tag_index ∧
    (add_document svc document true).last_updated = svc.last_updated + 1 := by
  refine ⟨rfl, rfl, ?_, ?_, rfl, rfl⟩
  · exact dict_get_insert_self svc.documents document.id document
  · exact dict_get_insert_self svc.path_index document.relative_path
      document.id

/-- C4: adding a well-formed document (id = stable hash of its relative
path) and then fetching by its relative path returns the identical document,
from any prior store state and whether or not the index write failed. -/
theorem c4_round_trip (svc : DocumentService) (d : DocumentContext)
    (f : Bool) (hwf : d.id = generate_document_id d.relative_path) :
    get_document (add_document svc d f) d.relative_path = some d := by
  have hid : d.id ≠ "" := by
    rw [hwf]
    exact generate_document_id_ne_empty d.relative_path
  simp [get_document, add_document, dict_get_insert_self, hid]

/-- C4 witness: the round-trip theorem applied to a concrete well-formed
document over a concrete store. -/
theorem c4_round_trip_witness :
    fixture_doc.id = generate_document_id fixture_doc.relative_path ∧
    get_document (add_document empty_service fixture_doc false)
      fixture_doc.relative_path = some fixture_doc :=
  ⟨rfl, c4_round_trip empty_service fixture_doc false rfl⟩

/-- C5: with an empty (or absent) query text, the candidate set built by
`search_documents` — before filters, sorting and pagination — is every
stored document, each with score exactly 1.0 and an empty match list. -/
theorem c5_empty_query_candidates (svc : DocumentService)
    (whoosh_hits : List (String × ℚ)) (query : ContextQuery)
    (h : query.query = none ∨ query.query = some "") :
    search_candidates svc whoosh_hits query =
      (get_all_documents svc none).map (fun d =>
        { document := d, score := 1, matches' := [] }) := by
  have ht : py_truthy_str query.query = false := by
    rcases h with h | h <;> simp [py_truthy_str, h]
  simp [search_candidates, ht, get_all_documents, List.map_map,
    Function.comp]

/-- C5 witness: the empty-query candidate theorem at a concrete store and
the default query. -/
theorem c5_empty_query_candidates_witness :
    (({} : ContextQuery).query = none ∨
      ({} : ContextQuery).query = some "") ∧
    search_candidates fixture_service [] {} =
      (get_all_documents fixture_service none).map (fun d =>
        { document := d, score := 1, matches' := [] }) :=
  ⟨Or.inl rfl, c5_empty_query_candidates fixture_service [] {} (Or.inl rfl)⟩

/-- C7 (code bug): after `clear_all_documents` on a store holding one
document, the three in-memory maps are empty, but the document id is still
present in the full-text index: `writer.commit(optimize=True)` merges
segments without queueing any deletion, so the index is not wiped as the
spec requires. -/
theorem c7_clear_all_keeps_search_index :
    (clear_all_documents fixture_service).documents = [] ∧
    (clear_all_documents fixture_service).path_index = [] ∧
    (clear_all_documents fixture_service).tag_index = [] ∧
    dict_get (clear_all_documents fixture_service).search_index
      fixture_doc.id ≠ none := by
  refine ⟨rfl, rfl, rfl, ?_⟩
  decide

/-- C10: `get_all_documents` treats `limit=0` exactly like `limit=None`
(Python falsiness), returning every stored document in insertion order
(`documents` is insertion-ordered, so its value list is); for a positive
limit `n` it returns the first `n` documents. -/
theorem c10_get_all_documents_limit (svc : DocumentService) :
    get_all_documents svc (some 0) = get_all_documents svc none ∧
    get_all_documents svc (some 0) = svc.documents.map (fun e => e.2) ∧
    ∀ n : Nat, get_all_documents svc (some ((n : Int) + 1)) =
      (svc.documents.map (fun e => e.2)).take (n + 1) := by
  refine ⟨rfl, rfl, fun n => ?_⟩
  have hne : ((n : Int) + 1) ≠ 0 := by omega
  simp only [get_all_documents]
  rw [if_neg hne]
  have h := py_slice_nat (svc.documents.map (fun e => e.2)) 0 (n + 1)
  simp only [Nat.cast_zero, Nat.cast_add, Nat.cast_one, List.drop_zero,
    Nat.sub_zero] at h
  exact h

/-- C3: pagination in `search_documents` is the Python slice
`results[offset : offset+limit]` — always a contiguous sub-slice of the
sorted filtered results, never an exception, for arbitrary (including
negative) offsets and limits; non-negative offset/limit clamp to
`drop offset, take limit`; and on a five-document store the spec's boundary
examples hold: `limit=2, offset=4` yields exactly 1 result and `offset=10`
yields 0 results. -/
theorem c3_pagination_clamping :
    (∀ (svc : DocumentService) (whoosh_hits : List (String × ℚ))
      (query : ContextQuery), ∃ s k,
        search_documents svc whoosh_hits query =
          ((sort_results (apply_filters
            (search_candidates svc whoosh_hits query) query)
            query.sort_by query.sort_order).drop s).take k) ∧
    (∀ (results : List SearchResult) (off lim : Nat),
      py_slice results (off : Int) ((off : Int) + (lim : Int)) =
        (results.drop off).take lim) ∧
    (search_documents five_doc_service [] { limit := 2, offset := 4 }).length
      = 1 ∧
    (search_documents five_doc_service [] { limit := 2, offset := 10 }).length
      = 0 := by
  refine ⟨fun svc hits query => ⟨_, _, rfl⟩, fun results off lim => ?_, ?_, ?_⟩
  · have h : (off : Int) + (lim : Int) = ((off + lim : Nat) : Int) := by
      push_cast
      ring
    rw [h, py_slice_nat]
    congr 1
    omega
  · decide
  · decide

/-- C6 counterexample: the claim as stated says the explicit front-matter
metadata title is used whenever it is *present*; but for a present yet empty
metadata title (front matter `title: ""`) the Python `or`-chain treats it as
falsy and falls through to the in-body heading, so the derived title is
"Heading", not the present metadata title `""`. -/
theorem c6_title_priority_counterexample :
    derive_title (some "") "# Heading" "notes" = "Heading" ∧
    derive_title (some "") "# Heading" "notes" ≠ "" := by
  constructor <;> decide

/-- C6 (amended): the title is the front-matter metadata title when present
and non-empty; otherwise the stripped text of the first level-1 heading when
one exists and strips to non-empty; otherwise the filename stem.  In
particular front matter `title: X` with body `# Heading` yields title
`"X"`. -/
theorem c6_title_priority :
    (∀ (t content_body stem : String), t ≠ "" →
      derive_title (some t) content_body stem = t) ∧
    (∀ (mt : Option String) (content_body stem h : String),
      (mt = none ∨ mt = some "") →
      extract_title_from_content content_body = some h → h ≠ "" →
      derive_title mt content_body stem = h) ∧
    (∀ (mt : Option String) (content_body stem : String),
      (mt = none ∨ mt = some "") →
      (extract_title_from_content content_body = none ∨
        extract_title_from_content content_body = some "") →
      derive_title mt content_body stem = stem) ∧
    derive_title (some "X") "# Heading" "file" = "X" := by
  refine ⟨?_, ?_, ?_, by decide⟩
  · intro t content_body stem ht
    simp [derive_title, py_or_str, ht]
  · intro mt content_body stem h hmt hex hh
    rcases hmt with hmt | hmt <;>
      simp [derive_title, py_or_str, hmt, hex, hh]
  · intro mt content_body stem hmt hex
    rcases hmt with hmt | hmt <;> rcases hex with hex | hex <;>
      simp [derive_title, py_or_str, hmt, hex]

/-- C6 witness: the amended priority theorem applied at the spec's own
scenario (`title: X`, body `# Heading`). -/
theorem c6_title_priority_witness :
    ("X" : String) ≠ "" ∧ derive_title (some "X") "# Heading" "file" = "X" :=
  ⟨by decide, c6_title_priority.1 "X" "# Heading" "file" (by decide)⟩

/-- Builder for the `SearchMatch` record appended per matching line by
`_find_matches` (1-based line number, stripped line text, first-occurrence
offsets, `end = start + len(query)`). -/
def mk_search_match (line_num : Nat) (line : String) (start_index qlen : Nat) :
    SearchMatch :=
  { line := line_num, text := py_strip line, start_index := start_index,
    end_index := start_index + qlen }

/-- The in-order, capped scan of `find_matches_go` equals filtering the
1-based enumerated lines down to those containing the query
(case-insensitively), keeping per line the first occurrence, and taking the
first `remaining` of them. -/
theorem find_matches_go_eq (query : String) (lines : List String) :
    ∀ (start remaining : Nat), 1 ≤ remaining →
      find_matches_go query (lower_chars query.data) lines start remaining =
        ((List.enumFrom start lines).filterMap (fun e =>
          (find_first (lower_chars e.2.data) (lower_chars query.data)).map
            (fun i => mk_search_match e.1 e.2 i query.length))).take
          remaining := by
  induction lines with
  | nil => intro start remaining _; simp [find_matches_go]
  | cons line rest ih =>
    intro start remaining hr
    rw [List.enumFrom_cons]
    cases hf : find_first (lower_chars line.data) (lower_chars query.data) with
    | none =>
      simp only [find_matches_go, hf, List.filterMap_cons, Option.map_none']
      exact ih (start + 1) remaining hr
    | some i =>
      obtain ⟨r', rfl⟩ : ∃ r', remaining = r' + 1 := ⟨remaining - 1, by omega⟩
      simp only [find_matches_go, hf, List.filterMap_cons, Option.map_some']
      by_cases h1 : r' = 0
      · subst h1
        simp [mk_search_match]
      · rw [if_neg (by omega : ¬ r' + 1 ≤ 1)]
        rw [List.take_succ_cons]
        rw [show r' + 1 - 1 = r' from by omega]
        rw [ih (start + 1) r' (by omega)]
        simp [mk_search_match]

/-- C9: for a non-empty query, `_find_matches` performs a literal
case-insensitive substring scan of the content split into lines,
top-to-bottom with 1-based line numbers; each match records the stripped
line text and the first occurrence's start/end offsets
(`end = start + len(query)`); the scan is capped at the first 5 matching
lines (`take 5`), so at most 5 matches are returned. -/
theorem c9_find_matches_characterization (document : DocumentContext)
    (query : String) (_hq : query ≠ "") :
    find_matches document query =
      ((List.enumFrom 1
        (py_split '\n' document.content)).filterMap (fun e =>
          (find_first (lower_chars e.2.data) (lower_chars query.data)).map
            (fun i => mk_search_match e.1 e.2 i query.length))).take 5 ∧
    (find_matches document query).length ≤ 5 := by
  have h := find_matches_go_eq query
    (py_split '\n' document.content) 1 5 (by omega)
  refine ⟨h, ?_⟩
  rw [show find_matches document query =
    find_matches_go query (lower_chars query.data)
      (py_split '\n' document.content) 1 5 from rfl, h]
  simp [List.length_take]

/-- C9 witness: the characterization applied to a concrete document and the
non-empty query "lo". -/
theorem c9_find_matches_characterization_witness :
    ("lo" : String) ≠ "" ∧
    (find_matches fixture_doc "lo" =
      ((List.enumFrom 1
        (py_split '\n' fixture_doc.content)).filterMap (fun e =>
          (find_first (lower_chars e.2.data) (lower_chars "lo".data)).map
            (fun i => mk_search_match e.1 e.2 i "lo".length))).take 5 ∧
     (find_matches fixture_doc "lo").length ≤ 5) :=
  ⟨by decide, c9_find_matches_characterization fixture_doc "lo" (by decide)⟩

/-- The full decision of `_should_process_file` for a file under the root:
extension support AND no exclude-pattern match AND some include-pattern
match. -/
theorem should_process_file_eq (root : String)
    (watch_patterns exclude_patterns : List String) (file_path rel : String)
    (hrel : relative_to file_path root = some rel) :
    should_process_file root watch_patterns exclude_patterns file_path =
      some (supported_extensions.contains (str_to_lower (path_suffix file_path)) &&
        !(exclude_patterns.any (fun pattern => fnmatch rel pattern)) &&
        watch_patterns.any (fun pattern => fnmatch rel pattern)) := by
  unfold should_process_file
  simp only [hrel]
  by_cases h1 : supported_extensions.contains
      (str_to_lower (path_suffix file_path)) = false
  · rw [if_pos h1, h1]
    simp
  · have h1' : supported_extensions.contains
        (str_to_lower (path_suffix file_path)) = true := by
      cases hx : supported_extensions.contains
        (str_to_lower (path_suffix file_path))
      · exact absurd hx h1
      · rfl
    rw [if_neg h1, h1']
    by_cases h2 : exclude_patterns.any (fun pattern => fnmatch rel pattern) =
      true
    · rw [if_pos h2, h2]
      simp
    · have h2' : exclude_patterns.any (fun pattern => fnmatch rel pattern) =
          false := by
        cases hx : exclude_patterns.any (fun pattern => fnmatch rel pattern)
        · rfl
        · exact absurd hx h2
      rw [if_neg h2, h2']
      by_cases h3 : watch_patterns.any (fun pattern => fnmatch rel pattern) =
        true
      · rw [if_pos h3, h3]
        simp
      · have h3' : watch_patterns.any (fun pattern => fnmatch rel pattern) =
            false := by
          cases hx : watch_patterns.any (fun pattern => fnmatch rel pattern)
          · rfl
          · exact absurd hx h3
        rw [if_neg h3, h3']
        simp

/-- C8: for a file under the watched root, the watcher event handler decides
to process the file iff its lowercased extension is in the fixed supported
set, the relative path matches no exclude pattern, and it matches at least
one include pattern; in particular a file matching any exclude pattern is
never processed, whatever the include patterns say. -/
theorem c8_watcher_filtering (root : String)
    (watch_patterns exclude_patterns : List String) (file_path rel : String)
    (hrel : relative_to file_path root = some rel) :
    (should_process_file root watch_patterns exclude_patterns file_path =
        some true ↔
      (str_to_lower (path_suffix file_path) ∈ supported_extensions ∧
       (∀ pattern ∈ exclude_patterns, fnmatch rel pattern = false) ∧
       (∃ pattern ∈ watch_patterns, fnmatch rel pattern = true))) ∧
    (∀ pattern ∈ exclude_patterns, fnmatch rel pattern = true →
      should_process_file root watch_patterns exclude_patterns file_path ≠
        some true) := by
  have heq := should_process_file_eq root watch_patterns exclude_patterns
    file_path rel hrel
  constructor
  · rw [heq]
    simp [List.any_eq_true, Bool.and_eq_true, and_assoc]
  · intro pattern hp hf h
    rw [heq] at h
    simp only [Option.some.injEq, Bool.and_eq_true, Bool.not_eq_true',
      List.any_eq_false] at h
    exact absurd hf (by simpa using h.1.2 pattern hp)

/-- C8 witness: the filtering theorem at the watcher's default patterns, for
a concrete markdown file under the root. -/
theorem c8_watcher_filtering_witness :
    relative_to "/r/docs/a.md" "/r" = some "docs/a.md" ∧
    ((should_process_file "/r"
        ["**/*.md", "**/*.txt", "**/*.rst", "**/*.markdown"]
        ["node_modules/**", "dist/**", ".git/**", "__pycache__/**",
          "venv/**", ".venv/**", "build/**", "coverage/**"]
        "/r/docs/a.md" = some true ↔
      (str_to_lower (path_suffix "/r/docs/a.md") ∈ supported_extensions ∧
       (∀ pattern ∈ ["node_modules/**", "dist/**", ".git/**",
          "__pycache__/**", "venv/**", ".venv/**", "build/**",
          "coverage/**"], fnmatch "docs/a.md" pattern = false) ∧
       (∃ pattern ∈ ["**/*.md", "**/*.txt", "**/*.rst", "**/*.markdown"],
          fnmatch "docs/a.md" pattern = true))) ∧
    (∀ pattern ∈ ["node_modules/**", "dist/**", ".git/**", "__pycache__/**",
        "venv/**", ".venv/**", "build/**", "coverage/**"],
      fnmatch "docs/a.md" pattern = true →
      should_process_file "/r"
        ["**/*.md", "**/*.txt", "**/*.rst", "**/*.markdown"]
        ["node_modules/**", "dist/**", ".git/**", "__pycache__/**",
          "venv/**", ".venv/**", "build/**", "coverage/**"]
        "/r/docs/a.md" ≠ some true)) :=
  ⟨by decide, c8_watcher_filtering "/r"
    ["**/*.md", "**/*.txt", "**/*.rst", "**/*.markdown"]
    ["node_modules/**", "dist/**", ".git/**", "__pycache__/**",
      "venv/**", ".venv/**", "build/**", "coverage/**"]
    "/r/docs/a.md" "docs/a.md" (by decide)⟩

/-! ## C1: the store cross-index invariant -/

/-- One mutating operation on the Document Store. -/
inductive StoreOp : Type
  | add (document : DocumentContext) (index_write_fails : Bool)
  | remove (document_id : String) (index_write_fails : Bool)
deriving DecidableEq

/-- Run a sequence of add/remove operations. -/
def run_ops (svc : DocumentService) : List StoreOp → DocumentService
  | [] => svc
  | StoreOp.add d f :: rest => run_ops (add_document svc d f) rest
  | StoreOp.remove i f :: rest => run_ops (remove_document svc i f) rest

/-- A well-formed add whose relative path is not currently in the store: the
document's id is the stable hash of its relative path, and the path is fresh
(the file-watcher discipline: a modify is remove-then-add). -/
def wf_fresh_add (svc : DocumentService) (d : DocumentContext) : Bool :=
  (d.id = generate_document_id d.relative_path) &&
    (dict_get svc.path_index d.relative_path).isNone

/-- Validity of an operation sequence from a given state: every add is
well-formed and path-fresh at its point of execution. -/
def valid_ops (svc : DocumentService) : List StoreOp → Bool
  | [] => true
  | StoreOp.add d f :: rest =>
    wf_fresh_add svc d && valid_ops (add_document svc d f) rest
  | StoreOp.remove i f :: rest => valid_ops (remove_document svc i f) rest

/-- The quiescent-point properties claimed for the store:
`|path_index| = |documents|`, no tag maps to an empty set, and every id in a
tag-set belongs to a currently stored document whose tags contain that tag
(hence ids appear only in the tag-sets of their current tags, and every
referenced id exists in the primary map). -/
def store_invariant (svc : DocumentService) : Prop :=
  svc.path_index.length = svc.documents.length ∧
  (∀ e ∈ svc.tag_index, e.2 ≠ []) ∧
  (∀ e ∈ svc.tag_index, ∀ id ∈ e.2,
    ∃ d, dict_get svc.documents id = some d ∧ e.1 ∈ d.tags)

/-- The inductive invariant carried through add/remove: key-uniqueness of
the three maps, well-formed ids, path-index completeness, and the tag-set
properties. -/
structure StoreInv (svc : DocumentService) : Prop where
  docs_nodup : (dict_keys svc.documents).Nodup
  path_nodup : (dict_keys svc.path_index).Nodup
  tags_nodup : (dict_keys svc.tag_index).Nodup
  len_eq : svc.path_index.length = svc.documents.length
  doc_wf : ∀ e ∈ svc.documents, e.1 = e.2.id ∧
    e.2.id = generate_document_id e.2.relative_path
  path_complete : ∀ e ∈ svc.documents,
    dict_get svc.path_index e.2.relative_path = some e.1
  tag_nonempty : ∀ e ∈ svc.tag_index, e.2 ≠ []
  tag_sound : ∀ e ∈ svc.tag_index, ∀ id ∈ e.2,
    ∃ d, dict_get svc.documents id = some d ∧ e.1 ∈ d.tags

theorem store_inv_empty : StoreInv empty_service := by
  constructor <;> simp [empty_service, dict_keys]

theorem store_inv_implies_invariant {svc : DocumentService}
    (h : StoreInv svc) : store_invariant svc :=
  ⟨h.len_eq, h.tag_nonempty, h.tag_sound⟩

theorem mem_dict_insert_elim_nodup {α : Type} {m : List (String × α)}
    {k : String} {v : α} {e : String × α} (hnd : (dict_keys m).Nodup)
    (h : e ∈ dict_insert m k v) : e = (k, v) ∨ (e ∈ m ∧ e.1 ≠ k) := by
  induction m with
  | nil => exact Or.inl (by simpa [dict_insert] using h)
  | cons e₀ rest ih =>
    obtain ⟨k₀, v₀⟩ := e₀
    simp only [dict_keys, List.map_cons, List.nodup_cons] at hnd
    by_cases h₀ : k₀ = k
    · subst h₀
      rw [dict_insert_cons_self] at h
      rcases List.mem_cons.mp h with h | h
      · exact Or.inl h
      · refine Or.inr ⟨List.mem_cons_of_mem _ h, ?_⟩
        intro hk
        exact hnd.1 (by
          have := List.mem_map_of_mem (fun x => x.1) h
          simpa [dict_keys, hk] using this)
    · rw [dict_insert_cons_ne v₀ v rest h₀] at h
      rcases List.mem_cons.mp h with h | h
      · refine Or.inr ⟨List.mem_cons.mpr (Or.inl h), ?_⟩
        rw [h]
        exact h₀
      · rcases ih hnd.2 h with h' | h'
        · exact Or.inl h'
        · exact Or.inr ⟨List.mem_cons_of_mem _ h'.1, h'.2⟩

/-- The tag-index fold of `add_document` preserves key-uniqueness,
non-emptiness and soundness (relative to a documents map already holding the
added document). -/
theorem tag_fold_add (documents : List (String × DocumentContext))
    (d : DocumentContext) (hd : dict_get documents d.id = some d) :
    ∀ (tags : List String) (ti : List (String × List String)),
      (∀ t ∈ tags, t ∈ d.tags) →
      (dict_keys ti).Nodup →
      (∀ e ∈ ti, e.2 ≠ []) →
      (∀ e ∈ ti, ∀ id ∈ e.2,
        ∃ doc, dict_get documents id = some doc ∧ e.1 ∈ doc.tags) →
      ((dict_keys (tags.foldl
          (fun ti tag => tag_index_add ti tag d.id) ti)).Nodup ∧
       (∀ e ∈ tags.foldl (fun ti tag => tag_index_add ti tag d.id) ti,
          e.2 ≠ []) ∧
       (∀ e ∈ tags.foldl (fun ti tag => tag_index_add ti tag d.id) ti,
          ∀ id ∈ e.2,
          ∃ doc, dict_get documents id = some doc ∧ e.1 ∈ doc.tags)) := by
  intro tags
  induction tags with
  | nil => intro ti _ hnd hne hsound; exact ⟨hnd, hne, hsound⟩
  | cons t ts ih =>
    intro ti htags hnd hne hsound
    rw [List.foldl_cons]
    refine ih (tag_index_add ti t d.id) (fun t' ht' => htags t'
      (List.mem_cons_of_mem _ ht')) ?_ ?_ ?_
    · exact dict_keys_nodup_insert t _ hnd
    · intro e he
      rcases mem_dict_insert_elim he with rfl | he'
      · exact set_add_ne_nil _ _
      · exact hne e he'
    · intro e he id hid
      rcases mem_dict_insert_elim he with rfl | he'
      · rcases mem_set_add_elim hid with rfl | hid'
        · exact ⟨d, hd, htags t (List.mem_cons_self t ts)⟩
        · cases hs : dict_get ti t with
          | none => simp [hs] at hid'
          | some s₀ =>
            rw [hs] at hid'
            exact hsound (t, s₀) (dict_get_mem hs) id (by simpa using hid')
      · exact hsound e he' id hid

/-- The tag-index fold of `remove_document` preserves key-uniqueness,
non-emptiness and (old-map) soundness, and ends with the removed id absent
from every tag-set, provided the id initially appears only in tag-sets whose
tag is still scheduled for processing. -/
theorem tag_fold_discard (documents : List (String × DocumentContext))
    (i : String) :
    ∀ (ts : List String) (ti : List (String × List String)),
      (dict_keys ti).Nodup →
      (∀ e ∈ ti, e.2 ≠ []) →
      (∀ e ∈ ti, ∀ id ∈ e.2,
        ∃ doc, dict_get documents id = some doc ∧ e.1 ∈ doc.tags) →
      (∀ e ∈ ti, i ∈ e.2 → e.1 ∈ ts) →
      ((dict_keys (ts.foldl
          (fun ti tag => tag_index_discard ti tag i) ti)).Nodup ∧
       (∀ e ∈ ts.foldl (fun ti tag => tag_index_discard ti tag i) ti,
          e.2 ≠ []) ∧
       (∀ e ∈ ts.foldl (fun ti tag => tag_index_discard ti tag i) ti,
          ∀ id ∈ e.2,
          ∃ doc, dict_get documents id = some doc ∧ e.1 ∈ doc.tags) ∧
       (∀ e ∈ ts.foldl (fun ti tag => tag_index_discard ti tag i) ti,
          i ∉ e.2)) := by
  intro ts
  induction ts with
  | nil =>
    intro ti hnd hne hsound hcont
    refine ⟨hnd, hne, hsound, fun e he hi => ?_⟩
    simpa using hcont e he hi
  | cons t ts' ih =>
    intro ti hnd hne hsound hcont
    rw [List.foldl_cons]
    unfold tag_index_discard
    by_cases hempty :
        set_discard ((dict_get ti t).getD []) i = []
    · rw [if_pos hempty]
      refine ih (dict_del ti t) (dict_keys_nodup_del t hnd) ?_ ?_ ?_
      · exact fun e he => hne e (mem_dict_del_elim he)
      · exact fun e he => hsound e (mem_dict_del_elim he)
      · intro e he hi
        have hne' : e.1 ≠ t := mem_dict_del_key_ne hnd he
        have := hcont e (mem_dict_del_elim he) hi
        rcases List.mem_cons.mp this with h | h
        · exact absurd h hne'
        · exact h
    · rw [if_neg hempty]
      refine ih (dict_insert ti t (set_discard ((dict_get ti t).getD []) i))
        (dict_keys_nodup_insert t _ hnd) ?_ ?_ ?_
      · intro e he
        rcases mem_dict_insert_elim he with rfl | he'
        · exact hempty
        · exact hne e he'
      · intro e he id hid
        rcases mem_dict_insert_elim he with rfl | he'
        · have hid' : id ∈ (dict_get ti t).getD [] :=
            (mem_set_discard.mp hid).1
          cases hs : dict_get ti t with
          | none => simp [hs] at hid'
          | some s₀ =>
            rw [hs] at hid'
            exact hsound (t, s₀) (dict_get_mem hs) id (by simpa using hid')
        · exact hsound e he' id hid
      · intro e he hi
        rcases mem_dict_insert_elim_nodup hnd he with rfl | he'
        · exact absurd rfl (mem_set_discard.mp hi).2
        · have := hcont e he'.1 hi
          rcases List.mem_cons.mp this with h | h
          · exact absurd h he'.2
          · exact h

/-- A well-formed, path-fresh `add_document` preserves the inductive store
invariant. -/
theorem store_inv_add (svc : DocumentService) (d : DocumentContext) (f : Bool)
    (hinv : StoreInv svc)
    (hwf : d.id = generate_document_id d.relative_path)
    (hfresh : dict_get svc.path_index d.relative_path = none) :
    StoreInv (add_document svc d f) := by
  have hid_fresh : dict_get svc.documents d.id = none := by
    cases hd : dict_get svc.documents d.id with
    | none => rfl
    | some d' =>
      exfalso
      have hmem := dict_get_mem hd
      obtain ⟨h1, h2⟩ := hinv.doc_wf (d.id, d') hmem
      have hrel : d'.relative_path = d.relative_path := by
        apply generate_document_id_injective
        rw [← h2, ← h1, hwf]
      have hpc := hinv.path_complete (d.id, d') hmem
      rw [hrel, hfresh] at hpc
      exact Option.noConfusion hpc
  have hsound' : ∀ e ∈ svc.tag_index, ∀ id ∈ e.2,
      ∃ doc, dict_get (dict_insert svc.documents d.id d) id = some doc ∧
        e.1 ∈ doc.tags := by
    intro e he id hid
    obtain ⟨doc, hdoc, htag⟩ := hinv.tag_sound e he id hid
    have hne : id ≠ d.id := by
      intro h
      rw [h, hid_fresh] at hdoc
      exact Option.noConfusion hdoc
    refine ⟨doc, ?_, htag⟩
    rw [dict_get_insert_ne _ _ _ _ hne]
    exact hdoc
  obtain ⟨hn, hne2, hs⟩ := tag_fold_add (dict_insert svc.documents d.id d) d
    (dict_get_insert_self _ _ _) d.tags svc.tag_index (fun t ht => ht)
    hinv.tags_nodup hinv.tag_nonempty hsound'
  constructor
  case docs_nodup => exact dict_keys_nodup_insert _ _ hinv.docs_nodup
  case path_nodup => exact dict_keys_nodup_insert _ _ hinv.path_nodup
  case tags_nodup => exact hn
  case len_eq =>
    show (dict_insert svc.path_index d.relative_path d.id).length =
      (dict_insert svc.documents d.id d).length
    rw [dict_insert_length_absent _ hfresh,
      dict_insert_length_absent _ hid_fresh, hinv.len_eq]
  case doc_wf =>
    intro e he
    rcases mem_dict_insert_elim he with rfl | he'
    · exact ⟨rfl, hwf⟩
    · exact hinv.doc_wf e he'
  case path_complete =>
    intro e he
    rcases mem_dict_insert_elim he with rfl | he'
    · exact dict_get_insert_self _ _ _
    · have hold := hinv.path_complete e he'
      have hne : e.2.relative_path ≠ d.relative_path := by
        intro h
        rw [h, hfresh] at hold
        exact Option.noConfusion hold
      show dict_get (dict_insert svc.path_index d.relative_path d.id)
        e.2.relative_path = some e.1
      rw [dict_get_insert_ne _ _ _ _ hne]
      exact hold
  case tag_nonempty => exact hne2
  case tag_sound => exact hs

/-- `remove_document` (present or absent id) preserves the inductive store
invariant. -/
theorem store_inv_remove (svc : DocumentService) (i : String) (f : Bool)
    (hinv : StoreInv svc) : StoreInv (remove_document svc i f) := by
  cases hd : dict_get svc.documents i with
  | none => simpa [remove_document, hd] using hinv
  | some document =>
    have hmem : (i, document) ∈ svc.documents := dict_get_mem hd
    obtain ⟨hi_eq, hwf_doc⟩ := hinv.doc_wf (i, document) hmem
    have hpath : dict_get svc.path_index document.relative_path = some i :=
      hinv.path_complete (i, document) hmem
    have hcont : ∀ e ∈ svc.tag_index, i ∈ e.2 → e.1 ∈ document.tags := by
      intro e he hi
      obtain ⟨doc, hdoc, htag⟩ := hinv.tag_sound e he i hi
      rw [hd] at hdoc
      injection hdoc with hdoc
      rw [hdoc]
      exact htag
    obtain ⟨hn, hne2, hs, habs⟩ := tag_fold_discard svc.documents i
      document.tags svc.tag_index hinv.tags_nodup hinv.tag_nonempty
      hinv.tag_sound hcont
    simp only [remove_document, hd]
    constructor
    case docs_nodup => exact dict_keys_nodup_del _ hinv.docs_nodup
    case path_nodup => exact dict_keys_nodup_del _ hinv.path_nodup
    case tags_nodup => exact hn
    case len_eq =>
      show (dict_del svc.path_index document.relative_path).length =
        (dict_del svc.documents i).length
      have h1 := dict_del_length_present hd
      have h2 := dict_del_length_present hpath
      have h3 := hinv.len_eq
      omega
    case doc_wf =>
      intro e he
      exact hinv.doc_wf e (mem_dict_del_elim he)
    case path_complete =>
      intro e he
      have he' := mem_dict_del_elim he
      have hkey : e.1 ≠ i := mem_dict_del_key_ne hinv.docs_nodup he
      have hold := hinv.path_complete e he'
      have hrelne : e.2.relative_path ≠ document.relative_path := by
        intro hre
        rw [hre, hpath] at hold
        injection hold with h
        exact hkey h.symm
      rw [dict_get_del_ne _ _ _ hrelne]
      exact hold
    case tag_nonempty => exact hne2
    case tag_sound =>
      intro e he id hid
      obtain ⟨doc, hdoc, htag⟩ := hs e he id hid
      have hidne : id ≠ i := by
        intro h
        exact habs e he (h ▸ hid)
      refine ⟨doc, ?_, htag⟩
      rw [dict_get_del_ne _ _ _ hidne]
      exact hdoc

/-- Running any valid operation sequence preserves the inductive
invariant. -/
theorem run_ops_inv : ∀ (ops : List StoreOp) (svc : DocumentService),
    StoreInv svc → valid_ops svc ops = true → StoreInv (run_ops svc ops) := by
  intro ops
  induction ops with
  | nil => intro svc h _; exact h
  | cons op rest ih =>
    intro svc hinv hval
    cases op with
    | add d f =>
      simp only [valid_ops, Bool.and_eq_true] at hval
      obtain ⟨hwf', hval'⟩ := hval
      simp only [wf_fresh_add, Bool.and_eq_true] at hwf'
      obtain ⟨h1, h2⟩ := hwf'
      have hwf : d.id = generate_document_id d.relative_path :=
        of_decide_eq_true h1
      have hfresh : dict_get svc.path_index d.relative_path = none :=
        Option.isNone_iff_eq_none.mp h2
      simp only [run_ops]
      exact ih _ (store_inv_add svc d f hinv hwf hfresh) hval'
    | remove i f =>
      simp only [valid_ops] at hval
      simp only [run_ops]
      exact ih _ (store_inv_remove svc i f hinv) hval

/-- C1 (amended): for every sequence of add/remove operations from the empty
store in which each added document is well-formed (id = stable hash of its
relative path) and its relative path is fresh at the time of the add (as the
watcher's remove-then-add discipline guarantees), the quiescent-point store
invariant holds: `|path_index| = |documents|`, no tag-set is empty, and
every id in a tag-set belongs to a stored document carrying that tag. -/
theorem c1_store_invariant (ops : List StoreOp)
    (hvalid : valid_ops empty_service ops = true) :
    store_invariant (run_ops empty_service ops) :=
  store_inv_implies_invariant
    (run_ops_inv ops empty_service store_inv_empty hvalid)

/-- First version of a document at path `p.md`, tagged `alpha`. -/
def c1_doc_v1 : DocumentContext :=
  { id := generate_document_id "p.md", title := "t1", content := "",
    path := "/r/p.md", relative_path := "p.md", last_modified := 0,
    size := 0, tags := ["alpha"] }

/-- Re-add of the same path with different tags (`beta`). -/
def c1_doc_v2 : DocumentContext :=
  { id := generate_document_id "p.md", title := "t2", content := "",
    path := "/r/p.md", relative_path := "p.md", last_modified := 1,
    size := 0, tags := ["beta"] }

/-- A valid operation sequence exercising add, remove, and re-add. -/
def c1_ops : List StoreOp :=
  [StoreOp.add c1_doc_v1 false, StoreOp.remove c1_doc_v1.id false,
    StoreOp.add c1_doc_v2 false]

/-- C1 witness: the invariant theorem applied to a concrete valid
sequence. -/
theorem c1_store_invariant_witness :
    valid_ops empty_service c1_ops = true ∧
    store_invariant (run_ops empty_service c1_ops) :=
  ⟨by decide, c1_store_invariant c1_ops (by decide)⟩

/-- C1 counterexample: the claim as stated quantifies over all sequences of
well-formed adds (id = stable hash of the path) without requiring path
freshness.  Adding `p.md` tagged `alpha` and then re-adding `p.md` tagged
`beta` (both well-formed) leaves the stale tag-set `alpha → {id}` behind:
the id now appears in a tag-set that is not among its current document's
tags, so the claimed invariant fails. -/
theorem c1_store_invariant_counterexample :
    c1_doc_v1.id = generate_document_id c1_doc_v1.relative_path ∧
    c1_doc_v2.id = generate_document_id c1_doc_v2.relative_path ∧
    ¬ store_invariant (run_ops empty_service
        [StoreOp.add c1_doc_v1 false, StoreOp.add c1_doc_v2 false]) := by
  refine ⟨rfl, rfl, ?_⟩
  intro h
  obtain ⟨-, -, hsound⟩ := h
  have hmem : (("alpha" : String), [generate_document_id "p.md"]) ∈
      (run_ops empty_service
        [StoreOp.add c1_doc_v1 false, StoreOp.add c1_doc_v2 false]).tag_index
    := by decide
  obtain ⟨d, hd, htag⟩ := hsound _ hmem (generate_document_id "p.md")
    (by decide)
  have hd2 : dict_get (run_ops empty_service
      [StoreOp.add c1_doc_v1 false, StoreOp.add c1_doc_v2 false]).documents
      (generate_document_id "p.md") = some c1_doc_v2 := by decide
  rw [hd2] at hd
  injection hd with hd
  rw [← hd] at htag
  exact absurd htag (by decide)

end AISDLC
